import Mathlib

/-!
Verification of the project work-log analysis program (Final.py).

This file shallowly embeds the program's data model and algorithms:
the `ProjectRecord` model with its lenient parsing (Python `strptime`
with format "%Y-%m-%d" and `float`), the row loader, the module-workload
and risk analyses, the risk-tier classification, and the top-level
pipeline.  Python floats are modelled as exact rationals; the data source
is modelled as either absent or an already-decoded list of rows.
-/

/-- The ASCII whitespace characters stripped by Python's str.strip(). -/
def isPySpace (c : Char) : Bool :=
  c == ' ' || c == '\t' || c == '\n' || c == '\r' || c == Char.ofNat 11 || c == Char.ofNat 12

/-- Python str.strip(): remove whitespace from both ends. -/
def pyStrip (l : List Char) : List Char :=
  ((l.dropWhile isPySpace).reverse.dropWhile isPySpace).reverse

/-- str.strip() on a whole string. -/
def pyStripStr (s : String) : String :=
  ⟨pyStrip s.data⟩

/-- Python str.lower() (ASCII case folding, as used by the summaries here). -/
def strLower (s : String) : String :=
  ⟨s.data.map Char.toLower⟩

/-- Whether the second list starts with the first (needle is a prefix of hay). -/
def beginsWith : List Char → List Char → Bool
  | [], _ => true
  | _ :: _, [] => false
  | n :: ns, h :: hs => n == h && beginsWith ns hs

/-- Python's substring containment test, `needle in hay`. -/
def containsSub (needle : List Char) : List Char → Bool
  | [] => needle.isEmpty
  | c :: t => beginsWith needle (c :: t) || containsSub needle t

/-- Numeric value of a list of decimal digit characters. -/
def digitsToNat (l : List Char) : Nat :=
  l.foldl (fun a c => a * 10 + (c.toNat - 48)) 0

/-- Gregorian leap-year rule used by Python's datetime. -/
def isLeapYear (y : Nat) : Bool :=
  y % 4 == 0 && (y % 100 != 0 || y % 400 == 0)

/-- Days in a month, as validated by the datetime constructor. -/
def daysInMonth (y m : Nat) : Nat :=
  if m == 2 then (if isLeapYear y then 29 else 28)
  else if m == 4 || m == 6 || m == 9 || m == 11 then 30
  else 31

/-- The characters between the first two dashes after the year: the month
part of the tail following the year's dash. -/
def monthPart (rest : List Char) : List Char :=
  rest.takeWhile (fun c => c != '-')

/-- The characters after the second dash: the day part. -/
def dayPart (rest : List Char) : List Char :=
  (rest.dropWhile (fun c => c != '-')).tail

/-- datetime.strptime(s, "%Y-%m-%d") on an already-stripped character list.
CPython matches %Y against exactly four digits, while %m and %d each match
one or two digits (zero padding is not required); the resulting numbers must
then form a real calendar date with year at least 1.  Returns the
(year, month, day) triple on success and none on any failure. -/
def parseDate (s : List Char) : Option (Nat × Nat × Nat) :=
  match s with
  | y1 :: y2 :: y3 :: y4 :: h :: rest =>
    if y1.isDigit && y2.isDigit && y3.isDigit && y4.isDigit && h == '-' &&
       decide (rest.dropWhile (fun c => c != '-') ≠ []) &&
       (monthPart rest).all Char.isDigit && decide (monthPart rest ≠ []) &&
       decide ((monthPart rest).length ≤ 2) &&
       (dayPart rest).all Char.isDigit && decide (dayPart rest ≠ []) &&
       decide ((dayPart rest).length ≤ 2) &&
       decide (1 ≤ digitsToNat [y1, y2, y3, y4]) &&
       decide (1 ≤ digitsToNat (monthPart rest)) &&
       decide (digitsToNat (monthPart rest) ≤ 12) &&
       decide (1 ≤ digitsToNat (dayPart rest)) &&
       decide (digitsToNat (dayPart rest) ≤
         daysInMonth (digitsToNat [y1, y2, y3, y4]) (digitsToNat (monthPart rest)))
    then some (digitsToNat [y1, y2, y3, y4], digitsToNat (monthPart rest),
               digitsToNat (dayPart rest))
    else none
  | _ => none

/-- Helper for float(): parse an unsigned decimal literal
(digits, optional fraction, optional exponent) into a rational. -/
def parseFloatAux (t : List Char) : Option ℚ :=
  let ip := t.takeWhile Char.isDigit
  let r1 := t.dropWhile Char.isDigit
  let fp :=
    match r1 with
    | c :: rest => if c == '.' then rest.takeWhile Char.isDigit else []
    | [] => []
  let r2 :=
    match r1 with
    | c :: rest => if c == '.' then rest.dropWhile Char.isDigit else r1
    | [] => r1
  if ip.length + fp.length == 0 then none
  else
    let mant : ℚ := (digitsToNat ip : ℚ) + (digitsToNat fp : ℚ) / ((10 : ℚ) ^ fp.length)
    match r2 with
    | [] => some mant
    | e :: rest =>
      if e == 'e' || e == 'E' then
        let esign : Int :=
          match rest with
          | c :: _ => if c == '-' then -1 else 1
          | [] => 1
        let rest2 :=
          match rest with
          | c :: r => if c == '-' || c == '+' then r else rest
          | [] => []
        let ed := rest2.takeWhile Char.isDigit
        if ed.length == 0 || decide (rest2.dropWhile Char.isDigit ≠ []) then none
        else some (mant * (10 : ℚ) ^ (esign * (digitsToNat ed : Int)))
      else none

/-- Python float(s) on finite decimal literals: optional surrounding
whitespace, optional sign, digits with optional fraction and exponent.
(The inf/nan spellings and digit-group underscores are outside this
embedding; the records under analysis use plain decimal notation.) -/
def parseFloat (s : String) : Option ℚ :=
  match pyStrip s.data with
  | [] => none
  | c :: rest =>
    if c == '-' then (parseFloatAux rest).map (fun q => -q)
    else if c == '+' then parseFloatAux rest
    else parseFloatAux (c :: rest)

/-- NEGATIVE_WORDS: the fixed ordered list of negative-sentiment keywords. -/
def NEGATIVE_WORDS : List String :=
  ["bug", "delay", "risk", "difficulty", "blocker", "error",
   "failure", "challenge", "problem", "poor", "crash", "tricky"]

/-- ProjectRecord: one work-log record as built by ProjectRecord.__init__. -/
structure ProjectRecord where
  date_str : String
  module : String
  date : Option (Nat × Nat × Nat)
  duration : ℚ
  status : String
  summary : String
deriving DecidableEq

/-- ProjectRecord.__init__: the date is strptime of the stripped date string
(absent on failure), the duration is float() of the raw value (0 on failure),
module and status are stripped, and the summary is stripped and lowercased. -/
def mkProjectRecord (date_str module_ duration status summary : String) : ProjectRecord :=
  { date_str := date_str
  , module := pyStripStr module_
  , date := parseDate (pyStrip date_str.data)
  , duration := (parseFloat duration).getD 0
  , status := pyStripStr status
  , summary := strLower (pyStripStr summary) }

/-- ProjectRecord.from_row: none when the row has fewer than 5 fields,
otherwise the record built from exactly the first 5 fields. -/
def ProjectRecord.from_row (row : List String) : Option ProjectRecord :=
  match row with
  | a :: b :: c :: d :: e :: _ => some (mkProjectRecord a b c d e)
  | _ => none

/-- ProjectRecord.is_valid: the date parsed and the duration is positive. -/
def ProjectRecord.is_valid (r : ProjectRecord) : Bool :=
  r.date.isSome && decide (0 < r.duration)

/-- ProjectRecord.has_negative_sentiment: some keyword is a substring of
the (already lowercased) summary. -/
def ProjectRecord.has_negative_sentiment (r : ProjectRecord) : Bool :=
  NEGATIVE_WORDS.any (fun w => containsSub w.data r.summary.data)

/-- The loader's accumulated state: kept records and the error tally. -/
structure LoadState where
  records : List ProjectRecord
  errorCount : Nat
deriving DecidableEq

/-- One iteration of DataParser.load_data's row loop: rows whose fields are
all empty are skipped (Python `if not any(row): continue`, empty strings
being falsy); otherwise the row goes through from_row, and the record is
kept only when valid, every other outcome incrementing the error count. -/
def processRow (st : LoadState) (row : List String) : LoadState :=
  if row.all (fun f => f == "") then st
  else
    match ProjectRecord.from_row row with
    | none => { st with errorCount := st.errorCount + 1 }
    | some r =>
      if r.is_valid then { st with records := st.records ++ [r] }
      else { st with errorCount := st.errorCount + 1 }

/-- DataParser.load_data over the decoded data rows (header already skipped). -/
def loadRows (rows : List (List String)) : LoadState :=
  rows.foldl processRow ⟨[], 0⟩

/-- Descending comparison by a key: the relation the stable sorts use
(Python sorted(key=..., reverse=True)). -/
def keyGE {α β : Type} (key : α → β) [LinearOrder β] (a b : α) : Prop :=
  key b ≤ key a

instance {α β : Type} (key : α → β) [LinearOrder β] : DecidableRel (keyGE key) :=
  fun a b => inferInstanceAs (Decidable (key b ≤ key a))

instance {α β : Type} (key : α → β) [LinearOrder β] : IsTotal α (keyGE key) :=
  ⟨fun a b => le_total (key b) (key a)⟩

instance {α β : Type} (key : α → β) [LinearOrder β] : IsTrans α (keyGE key) :=
  ⟨fun _ _ _ h1 h2 => le_trans h2 h1⟩

/-- Add a duration to a module's running total, appending a fresh entry on
first encounter (the defaultdict insertion-order behaviour). -/
def addDur : List (String × ℚ) → String → ℚ → List (String × ℚ)
  | [], m, d => [(m, d)]
  | (k, v) :: t, m, d =>
    if k == m then (k, v + d) :: t else (k, v) :: addDur t m d

/-- Per-module summed durations, modules in first-encounter order. -/
def moduleDuration (rs : List ProjectRecord) : List (String × ℚ) :=
  rs.foldl (fun acc r => addDur acc r.module r.duration) []

/-- Grand total: the sum of the per-module sums (sum of the dict's values). -/
def totalDuration (rs : List ProjectRecord) : ℚ :=
  ((moduleDuration rs).map Prod.snd).sum

/-- Each module with its duration and its percentage of the grand total
(0 when the total is not positive), in first-encounter order. -/
def moduleLoad (rs : List ProjectRecord) : List (String × ℚ × ℚ) :=
  (moduleDuration rs).map
    (fun p => (p.1, p.2, if 0 < totalDuration rs then p.2 / totalDuration rs * 100 else 0))

/-- Sort key of analyze_module_load: the group duration. -/
def durKey (p : String × ℚ × ℚ) : ℚ := p.2.1

/-- analyze_module_load's output: entries sorted by descending duration
(stable, like Python's sorted with reverse=True). -/
def sortedModules (rs : List ProjectRecord) : List (String × ℚ × ℚ) :=
  List.insertionSort (keyGE durKey) (moduleLoad rs)

/-- Bump a keyword's tally, appending a fresh entry on first encounter
(the defaultdict insertion-order behaviour of word_counts). -/
def addCnt : List (String × Nat) → String → List (String × Nat)
  | [], w => [(w, 1)]
  | (k, v) :: t, w =>
    if k == w then (k, v + 1) :: t else (k, v) :: addCnt t w

/-- analyze_risk's keyword tallies: scan the negative records in order and,
inside each, the keywords in NEGATIVE_WORDS order; a keyword's entry is
created at the end of the list on its first encounter. -/
def wordCounts (rs : List ProjectRecord) : List (String × Nat) :=
  (rs.filter (fun r => r.has_negative_sentiment)).foldl
    (fun acc r =>
      NEGATIVE_WORDS.foldl
        (fun acc2 w => if containsSub w.data r.summary.data then addCnt acc2 w else acc2)
        acc)
    []

/-- Sort key of the top-word ranking: the tally. -/
def cntKey (p : String × Nat) : Nat := p.2

/-- The tallies sorted by descending count (stable). -/
def sortWords (rs : List ProjectRecord) : List (String × Nat) :=
  List.insertionSort (keyGE cntKey) (wordCounts rs)

/-- analyze_risk's top_words: the first three of the sorted tallies. -/
def topWords (rs : List ProjectRecord) : List (String × Nat) :=
  (sortWords rs).take 3

/-- analyze_risk: (negative_count, total_count, top_words); all empty
when there are no records. -/
def analyzeRisk (rs : List ProjectRecord) : Nat × Nat × List (String × Nat) :=
  if rs = [] then (0, 0, [])
  else ((rs.filter (fun r => r.has_negative_sentiment)).length, rs.length, topWords rs)

/-- The three risk tiers of the report's AI assessment. -/
inductive RiskLevel where
  | high
  | medium
  | low
deriving DecidableEq

/-- generate_risk_report's tier choice from the negative percentage
(negative_count / total_count * 100): at least 30 is HIGH, at least 15 is
MEDIUM, anything lower is LOW. -/
def classifyRisk (negCount totalCount : Nat) : RiskLevel :=
  if 30 ≤ ((negCount : ℚ) / (totalCount : ℚ)) * 100 then RiskLevel.high
  else if 15 ≤ ((negCount : ℚ) / (totalCount : ℚ)) * 100 then RiskLevel.medium
  else RiskLevel.low

/-- The analysis bundle a completed run produces (time figures, sorted
module workload, risk counts, ranked keywords and tier). -/
structure AnalysisReport where
  totalDur : ℚ
  workDays : Nat
  avgDaily : ℚ
  modules : List (String × ℚ × ℚ)
  negativeCount : Nat
  totalCount : Nat
  topNegWords : List (String × Nat)
  risk : RiskLevel

/-- Assemble the report bundle from the valid records (run_all_analysis
followed by the report's tier computation). -/
def mkReport (rs : List ProjectRecord) : AnalysisReport :=
  let total := (rs.map (fun r => r.duration)).sum
  let days := ((rs.map (fun r => r.date)).dedup).length
  { totalDur := total
  , workDays := days
  , avgDaily := if 0 < days then total / (days : ℚ) else 0
  , modules := sortedModules rs
  , negativeCount := (rs.filter (fun r => r.has_negative_sentiment)).length
  , totalCount := rs.length
  , topNegWords := topWords rs
  , risk := classifyRisk (rs.filter (fun r => r.has_negative_sentiment)).length rs.length }

/-- run_analysis over the data source, modelled as either absent (none) or
a decoded list of data rows: the run halts without a report when the source
is absent or when no valid records were loaded, and otherwise produces the
full report. -/
def runPipeline (input : Option (List (List String))) : Option AnalysisReport :=
  match input with
  | none => none
  | some rows =>
    let st := loadRows rows
    if st.records = [] then none else some (mkReport st.records)

/-- The exact zero-padded date shape asserted by the specification: ten
characters, four-digit year, dash, two-digit month, dash, two-digit day,
forming a real calendar date. -/
def exactDateFormat (s : List Char) : Bool :=
  match s with
  | [a, b, c, d, h1, m1, m2, h2, d1, d2] =>
    a.isDigit && b.isDigit && c.isDigit && d.isDigit && h1 == '-' &&
    m1.isDigit && m2.isDigit && h2 == '-' && d1.isDigit && d2.isDigit &&
    (let y := digitsToNat [a, b, c, d]
     let m := digitsToNat [m1, m2]
     let dd := digitsToNat [d1, d2]
     decide (1 ≤ y) && decide (1 ≤ m) && decide (m ≤ 12) &&
     decide (1 ≤ dd) && decide (dd ≤ daysInMonth y m))
  | _ => false

/-- The date shape the code actually accepts, written declaratively:
four-digit year, dash, one-or-two-digit month, dash, one-or-two-digit day,
digits only, forming a real calendar date with year at least 1. -/
def lenientDateShape (s : List Char) : Prop :=
  ∃ y1 y2 y3 y4 ms ds,
    s = y1 :: y2 :: y3 :: y4 :: '-' :: (ms ++ '-' :: ds) ∧
    (y1.isDigit && y2.isDigit && y3.isDigit && y4.isDigit) = true ∧
    ms ≠ [] ∧ ms.length ≤ 2 ∧ (∀ c ∈ ms, c.isDigit = true) ∧
    ds ≠ [] ∧ ds.length ≤ 2 ∧ (∀ c ∈ ds, c.isDigit = true) ∧
    1 ≤ digitsToNat [y1, y2, y3, y4] ∧
    1 ≤ digitsToNat ms ∧ digitsToNat ms ≤ 12 ∧
    1 ≤ digitsToNat ds ∧
    digitsToNat ds ≤ daysInMonth (digitsToNat [y1, y2, y3, y4]) (digitsToNat ms)

/-- The keys of a scan in first-encounter order, given the already-seen keys. -/
def firstKeys (seen : List String) : List String → List String
  | [] => []
  | m :: t => if m ∈ seen then firstKeys seen t else m :: firstKeys (m :: seen) t

/-- The sum of the percentage components of a workload listing. -/
def sumPercent (l : List (String × ℚ × ℚ)) : ℚ :=
  (l.map (fun p => p.2.2)).sum

/-- Concrete record whose summary mentions only the keyword "delay". -/
def exRec1 : ProjectRecord :=
  mkProjectRecord "2024-01-01" "Auth" "5" "Done" "delay in testing"

/-- Concrete record whose summary mentions only the keyword "bug". -/
def exRec2 : ProjectRecord :=
  mkProjectRecord "2024-01-02" "UI" "3" "Done" "found a bug"

/-- Concrete record: 2 hours on module Auth. -/
def exRec3 : ProjectRecord :=
  ⟨"2024-01-01", "Auth", some (2024, 1, 1), 2, "Done", "all good"⟩

/-- Concrete record: 2 hours on module UI. -/
def exRec4 : ProjectRecord :=
  ⟨"2024-01-02", "UI", some (2024, 1, 2), 2, "Done", "smooth"⟩

/-- Concrete record with an unparseable duration (defaults to 0). -/
def exRecZero : ProjectRecord :=
  mkProjectRecord "2024-01-01" "Auth" "zero" "Done" "ok"

/-! ### Stability of the descending insertion sort -/

/-- Filtering by an exact key value commutes with ordered insertion:
the inserted element lands in front of its key class. -/
lemma filter_orderedInsert_key {α β : Type} [LinearOrder β] [DecidableEq β]
    (key : α → β) (x : β) (a : α) (l : List α) :
    (List.orderedInsert (keyGE key) a l).filter (fun b => decide (key b = x)) =
      if key a = x then a :: l.filter (fun b => decide (key b = x))
      else l.filter (fun b => decide (key b = x)) := by
  induction l with
  | nil =>
    by_cases h : key a = x <;> simp [List.orderedInsert, List.filter, h]
  | cons b t ih =>
    simp only [List.orderedInsert]
    by_cases hr : keyGE key a b
    · rw [if_pos hr]
      by_cases h : key a = x <;> simp [List.filter_cons, h]
    · rw [if_neg hr]
      have hab : ¬ key b ≤ key a := hr
      by_cases hb : key b = x
      · have ha : key a ≠ x := by
          intro h
          exact hab (le_of_eq (hb.trans h.symm))
        simp [List.filter_cons, hb, ha, ih]
      · by_cases ha : key a = x <;> simp [List.filter_cons, hb, ha, ih]

/-- Stability of the descending insertion sort: within one key value, the
sorted list keeps exactly the input's order. -/
lemma filter_insertionSort_key {α β : Type} [LinearOrder β] [DecidableEq β]
    (key : α → β) (x : β) (l : List α) :
    (List.insertionSort (keyGE key) l).filter (fun b => decide (key b = x)) =
      l.filter (fun b => decide (key b = x)) := by
  induction l with
  | nil => rfl
  | cons a t ih =>
    simp only [List.insertionSort]
    rw [filter_orderedInsert_key]
    by_cases h : key a = x <;> simp [h, ih, List.filter_cons]

/-- A pair of equal-key elements appearing in order in the sorted list
already appeared in that order in the original list. -/
lemma pair_sublist_of_sorted {α β : Type} [LinearOrder β] [DecidableEq β]
    (key : α → β) {l : List α} {p q : α}
    (hsub : [p, q].Sublist (List.insertionSort (keyGE key) l))
    (heq : key p = key q) : [p, q].Sublist l := by
  have h1 : [p, q].filter (fun b => decide (key b = key q)) = [p, q] := by
    simp [List.filter, heq]
  have h2 := hsub.filter (fun b => decide (key b = key q))
  rw [h1, filter_insertionSort_key] at h2
  exact h2.trans (List.filter_sublist _)

/-! ### First-encounter order of grouped keys -/

/-- firstKeys only inspects membership in the seen list. -/
lemma firstKeys_congr {s1 s2 : List String} (h : ∀ x, x ∈ s1 ↔ x ∈ s2) :
    ∀ l : List String, firstKeys s1 l = firstKeys s2 l := by
  intro l
  induction l generalizing s1 s2 with
  | nil => rfl
  | cons m t ih =>
    simp only [firstKeys]
    by_cases hm : m ∈ s1
    · rw [if_pos hm, if_pos ((h m).mp hm)]
      exact ih h
    · rw [if_neg hm, if_neg (fun hc => hm ((h m).mpr hc))]
      have : ∀ x, x ∈ m :: s1 ↔ x ∈ m :: s2 := by
        intro x
        simp [List.mem_cons, h x]
      rw [ih this]

/-- An emitted key was not among the already-seen ones. -/
lemma mem_firstKeys_not_seen {x : String} :
    ∀ {seen l : List String}, x ∈ firstKeys seen l → x ∉ seen := by
  intro seen l
  induction l generalizing seen with
  | nil => simp [firstKeys]
  | cons m t ih =>
    simp only [firstKeys]
    by_cases hm : m ∈ seen
    · rw [if_pos hm]
      exact ih
    · rw [if_neg hm]
      intro hx
      rcases List.mem_cons.mp hx with rfl | hx'
      · exact hm
      · intro hs
        exact ih hx' (List.mem_cons_of_mem _ hs)

/-- The emitted keys are ordered by the position of their first occurrence. -/
lemma pairwise_indexOf_firstKeys :
    ∀ (l seen : List String),
      (firstKeys seen l).Pairwise (fun a b => l.indexOf a < l.indexOf b) := by
  intro l
  induction l with
  | nil => intro seen; simp [firstKeys]
  | cons m t ih =>
    intro seen
    simp only [firstKeys]
    by_cases hm : m ∈ seen
    · rw [if_pos hm]
      refine (ih seen).imp_of_mem ?_
      intro a b ha hb hlt
      have hna : m ≠ a := fun h => mem_firstKeys_not_seen ha (h ▸ hm)
      have hnb : m ≠ b := fun h => mem_firstKeys_not_seen hb (h ▸ hm)
      rw [List.indexOf_cons_ne _ hna, List.indexOf_cons_ne _ hnb]
      exact Nat.succ_lt_succ hlt
    · rw [if_neg hm]
      refine List.pairwise_cons.mpr ⟨?_, ?_⟩
      · intro b hb
        have hbne : m ≠ b := fun h =>
          mem_firstKeys_not_seen hb (h ▸ List.mem_cons_self m seen)
        rw [List.indexOf_cons_self, List.indexOf_cons_ne _ hbne]
        exact Nat.succ_pos _
      · refine (ih (m :: seen)).imp_of_mem ?_
        intro a b ha hb hlt
        have hna : m ≠ a := fun h =>
          mem_firstKeys_not_seen ha (h ▸ List.mem_cons_self m seen)
        have hnb : m ≠ b := fun h =>
          mem_firstKeys_not_seen hb (h ▸ List.mem_cons_self m seen)
        rw [List.indexOf_cons_ne _ hna, List.indexOf_cons_ne _ hnb]
        exact Nat.succ_lt_succ hlt

/-- Adding a duration either leaves the key list unchanged or appends the
new module at the end. -/
lemma addDur_keys (l : List (String × ℚ)) (m : String) (d : ℚ) :
    (addDur l m d).map Prod.fst =
      if m ∈ l.map Prod.fst then l.map Prod.fst else l.map Prod.fst ++ [m] := by
  induction l with
  | nil => simp [addDur]
  | cons p t ih =>
    obtain ⟨k, v⟩ := p
    by_cases hk : k = m
    · simp [addDur, hk]
    · have hmk : m ≠ k := Ne.symm hk
      simp only [addDur, beq_iff_eq, if_neg hk, List.map_cons]
      rw [ih]
      by_cases hm : m ∈ t.map Prod.fst <;> simp [List.mem_cons, hm, hmk]

/-- The grouping fold lists modules in first-encounter order. -/
lemma foldl_addDur_keys (l : List ProjectRecord) :
    ∀ acc : List (String × ℚ),
      (l.foldl (fun a r => addDur a r.module r.duration) acc).map Prod.fst =
        acc.map Prod.fst ++
          firstKeys (acc.map Prod.fst) (l.map (fun r => r.module)) := by
  induction l with
  | nil => intro acc; simp [firstKeys]
  | cons r t ih =>
    intro acc
    simp only [List.foldl_cons, List.map_cons]
    rw [ih, addDur_keys]
    by_cases hm : r.module ∈ acc.map Prod.fst
    · rw [if_pos hm]
      simp only [firstKeys]
      rw [if_pos hm]
    · rw [if_neg hm]
      simp only [firstKeys]
      rw [if_neg hm]
      rw [@firstKeys_congr (acc.map Prod.fst ++ [r.module])
            (r.module :: acc.map Prod.fst)
            (fun x => by simp [List.mem_append, List.mem_cons, or_comm])]
      simp

/-- The grouped module entries are ordered by each module's first
occurrence in the record sequence. -/
lemma pairwise_firstIdx_moduleDuration (rs : List ProjectRecord) :
    ((moduleDuration rs).map Prod.fst).Pairwise
      (fun a b =>
        (rs.map (fun r => r.module)).indexOf a <
          (rs.map (fun r => r.module)).indexOf b) := by
  unfold moduleDuration
  rw [foldl_addDur_keys]
  simpa using pairwise_indexOf_firstKeys (rs.map (fun r => r.module)) []

/-- Attaching percentages keeps the module names. -/
lemma moduleLoad_keys (rs : List ProjectRecord) :
    (moduleLoad rs).map Prod.fst = (moduleDuration rs).map Prod.fst := by
  simp [moduleLoad, List.map_map, Function.comp]

/-- The workload entries are ordered by first encounter of their module. -/
lemma pairwise_firstIdx_moduleLoad (rs : List ProjectRecord) :
    (moduleLoad rs).Pairwise
      (fun p q =>
        (rs.map (fun r => r.module)).indexOf p.1 <
          (rs.map (fun r => r.module)).indexOf q.1) := by
  have h := pairwise_firstIdx_moduleDuration rs
  rw [← moduleLoad_keys] at h
  exact (@List.pairwise_map _ _ Prod.fst _ _).mp h

/-! ### The date shape the parser accepts -/

/-- A run of digits followed by a dash is what takeWhile keeps. -/
lemma takeWhile_digits_dash (ms ds : List Char) (h : ∀ c ∈ ms, c.isDigit = true) :
    (ms ++ '-' :: ds).takeWhile (fun c => c != '-') = ms := by
  induction ms with
  | nil => simp [List.takeWhile]
  | cons c t ih =>
    have hc : c.isDigit = true := h c (List.mem_cons_self _ _)
    have hcne : c ≠ '-' := by
      rintro rfl
      exact absurd hc (by decide)
    simp only [List.cons_append, List.takeWhile_cons]
    simp [hcne, ih (fun x hx => h x (List.mem_cons_of_mem _ hx))]

/-- A run of digits followed by a dash is what dropWhile discards. -/
lemma dropWhile_digits_dash (ms ds : List Char) (h : ∀ c ∈ ms, c.isDigit = true) :
    (ms ++ '-' :: ds).dropWhile (fun c => c != '-') = '-' :: ds := by
  induction ms with
  | nil => simp [List.dropWhile]
  | cons c t ih =>
    have hc : c.isDigit = true := h c (List.mem_cons_self _ _)
    have hcne : c ≠ '-' := by
      rintro rfl
      exact absurd hc (by decide)
    simp only [List.cons_append, List.dropWhile_cons]
    simp [hcne, ih (fun x hx => h x (List.mem_cons_of_mem _ hx))]

/-- The head surviving a dropWhile fails the predicate. -/
lemma dropWhile_head_false {α : Type} (p : α → Bool) :
    ∀ (l : List α) {c : α} {t : List α}, l.dropWhile p = c :: t → p c = false := by
  intro l
  induction l with
  | nil => intro c t h; simp [List.dropWhile] at h
  | cons a l ih =>
    intro c t h
    by_cases ha : p a
    · rw [List.dropWhile_cons, if_pos ha] at h
      exact ih h
    · rw [List.dropWhile_cons, if_neg ha] at h
      obtain ⟨rfl, rfl⟩ := List.cons.injEq .. ▸ h
      simpa using ha

/-- The parser succeeds exactly on the lenient year-month-day shape:
four-digit year, one-or-two-digit month and day, real calendar date. -/
lemma parseDate_isSome_iff (s : List Char) :
    (parseDate s).isSome = true ↔ lenientDateShape s := by
  constructor
  · intro h
    rcases s with _ | ⟨y1, _ | ⟨y2, _ | ⟨y3, _ | ⟨y4, _ | ⟨hd, rest⟩⟩⟩⟩⟩ <;>
      simp only [parseDate, Option.isSome_none, Bool.false_eq_true] at h
    split_ifs at h with hg
    · simp only [Bool.and_eq_true, and_assoc, beq_iff_eq, decide_eq_true_eq,
        List.all_eq_true] at hg
      obtain ⟨hy1, hy2, hy3, hy4, rfl, hdwne, hmsd, hmsne, hmslen,
        hdsd, hdsne, hdslen, hyr, hmr1, hmr2, hdr1, hdr2⟩ := hg
      cases hdw : rest.dropWhile (fun c => c != '-') with
      | nil => exact absurd hdw hdwne
      | cons c2 ds2 =>
        have hc2 : c2 = '-' := by
          have := dropWhile_head_false (fun c => c != '-') rest hdw
          simpa using this
        subst hc2
        have hdp : dayPart rest = ds2 := by
          unfold dayPart
          rw [hdw]
          rfl
        have hrest : rest = monthPart rest ++ '-' :: ds2 := by
          have := List.takeWhile_append_dropWhile (fun c => c != '-') rest
          rw [hdw] at this
          exact this.symm
        refine ⟨y1, y2, y3, y4, monthPart rest, ds2, ?_, ?_,
          hmsne, hmslen, hmsd, hdp ▸ hdsne, hdp ▸ hdslen, hdp ▸ hdsd,
          hyr, hmr1, hmr2, hdp ▸ hdr1, hdp ▸ hdr2⟩
        · rw [← hrest]
        · simp [hy1, hy2, hy3, hy4]
    · simp at h
  · rintro ⟨y1, y2, y3, y4, ms, ds, rfl, hy, hmsne, hmslen, hmsd, hdsne, hdslen,
      hdsd, hyr, hmr1, hmr2, hdr1, hdr2⟩
    obtain ⟨hy1, hy2, hy3, hy4⟩ : y1.isDigit = true ∧ y2.isDigit = true ∧
        y3.isDigit = true ∧ y4.isDigit = true := by
      simpa [Bool.and_eq_true, and_assoc] using hy
    have hmp : monthPart (ms ++ '-' :: ds) = ms :=
      takeWhile_digits_dash ms ds hmsd
    have hdp : dayPart (ms ++ '-' :: ds) = ds := by
      unfold dayPart
      rw [dropWhile_digits_dash ms ds hmsd]
      rfl
    simp only [parseDate, hmp, hdp, dropWhile_digits_dash ms ds hmsd]
    rw [if_pos]
    · rfl
    · simp only [Bool.and_eq_true, and_assoc, beq_iff_eq, decide_eq_true_eq,
        List.all_eq_true]
      exact ⟨hy1, hy2, hy3, hy4, trivial, by simp, hmsd, hmsne, hmslen,
        hdsd, hdsne, hdslen, hyr, hmr1, hmr2, hdr1, hdr2⟩

/-! ### The loader keeps only positive durations -/

/-- Every record the row loop has kept has a strictly positive duration. -/
lemma foldl_processRow_duration_pos :
    ∀ (rows : List (List String)) (st : LoadState),
      (∀ r ∈ st.records, 0 < r.duration) →
      ∀ r ∈ (rows.foldl processRow st).records, 0 < r.duration := by
  intro rows
  induction rows with
  | nil => intro st h; simpa using h
  | cons row t ih =>
    intro st h
    simp only [List.foldl_cons]
    apply ih
    intro r hr
    by_cases hblank : row.all (fun f => f == "")
    · simp only [processRow, if_pos hblank] at hr
      exact h r hr
    · simp only [processRow, if_neg hblank] at hr
      cases hfr : ProjectRecord.from_row row with
      | none =>
        rw [hfr] at hr
        exact h r hr
      | some rec =>
        rw [hfr] at hr
        by_cases hv : rec.is_valid
        · simp only [if_pos hv, List.mem_append, List.mem_singleton] at hr
          rcases hr with hr | rfl
          · exact h r hr
          · have := hv
            simp only [ProjectRecord.is_valid, Bool.and_eq_true,
              decide_eq_true_eq] at this
            exact this.2
        · simp only [if_neg hv] at hr
          exact h r hr

/-! ### Percentage sums -/

/-- Distributing the division and scaling over a sum. -/
lemma sum_map_div_mul (l : List ℚ) (T : ℚ) :
    (l.map (fun d => d / T * 100)).sum = l.sum / T * 100 := by
  induction l with
  | nil => simp
  | cons a t ih => simp [ih, add_div, add_mul]

/-- Sorting does not change the percentage sum. -/
lemma sumPercent_sortedModules (rs : List ProjectRecord) :
    sumPercent (sortedModules rs) = sumPercent (moduleLoad rs) := by
  unfold sumPercent sortedModules
  exact ((List.perm_insertionSort (keyGE durKey) (moduleLoad rs)).map _).sum_eq

/-! ### The claims -/

/-- C2 counterexample: the date string "2024-1-1" is not in the exact
zero-padded YYYY-MM-DD shape, yet the constructed record's date is present,
because strptime accepts single-digit months and days. -/
theorem date_exact_format_cex :
    (mkProjectRecord "2024-1-1" "Auth" "5" "Done" "ok").date.isSome = true ∧
    exactDateFormat (pyStrip "2024-1-1".data) = false :=
  ⟨by decide, by decide⟩

/-- C2 amended: the Record constructor sets the date to a present value
exactly when the trimmed date string consists of a four-digit year, a dash,
a one-or-two-digit month, a dash and a one-or-two-digit day, digits only,
forming a real calendar date with year at least 1; zero padding of the
month and day is not required.  Construction always succeeds. -/
theorem record_date_iff_lenient_shape (dstr m du st su : String) :
    (mkProjectRecord dstr m du st su).date.isSome = true ↔
      lenientDateShape (pyStrip dstr.data) :=
  parseDate_isSome_iff (pyStrip dstr.data)

/-- C3 counterexample: a data row of exactly 5 empty-string fields is
skipped by the blank-row check, leaving the loader state untouched: the
error count stays 0 instead of being incremented. -/
theorem five_empty_fields_cex :
    processRow ⟨[], 0⟩ ["", "", "", "", ""] = ⟨[], 0⟩ ∧
    (loadRows [["", "", "", "", ""]]).errorCount = 0 ∧
    (loadRows [["", "", "", "", ""]]).records = [] := by
  refine ⟨by decide, by decide, by decide⟩

/-- C3 amended: the blank-row check fires on every row whose fields are all
empty strings, regardless of the field count, so a row of exactly 5 empty
fields is skipped: it never reaches the Record constructor and leaves both
the kept records and the error count unchanged. -/
theorem blank_row_skipped (st : LoadState) (row : List String)
    (h : row.all (fun f => f == "") = true) : processRow st row = st := by
  simp [processRow, h]

/-- C3 witness: the all-empty 5-field row leaves the fresh loader state
unchanged. -/
theorem blank_row_skipped_witness :
    processRow ⟨[], 0⟩ ["", "", "", "", ""] = ⟨[], 0⟩ :=
  blank_row_skipped ⟨[], 0⟩ ["", "", "", "", ""] (by decide)

/-- C5: is_valid holds exactly when the date is present and the duration is
strictly positive; a record with non-positive duration is invalid whatever
its date, and a record with an absent date is invalid whatever its
duration. -/
theorem is_valid_spec (r : ProjectRecord) :
    (r.is_valid = true ↔ r.date.isSome = true ∧ 0 < r.duration) ∧
    (r.duration ≤ 0 → r.is_valid = false) ∧
    (r.date = none → r.is_valid = false) := by
  refine ⟨?_, ?_, ?_⟩
  · simp [ProjectRecord.is_valid]
  · intro h
    simp [ProjectRecord.is_valid, not_lt.mpr h]
  · intro h
    simp [ProjectRecord.is_valid, h]

/-- C5 witness: the record built from the unparseable duration "zero" is
invalid despite its valid date, and the record with the impossible month 13
is invalid despite its positive duration. -/
theorem is_valid_spec_witness :
    (mkProjectRecord "2024-01-01" "Auth" "zero" "Done" "ok").is_valid = false ∧
    (mkProjectRecord "2024-13-01" "Auth" "5" "Done" "ok").is_valid = false :=
  ⟨(is_valid_spec _).2.1 (by decide), (is_valid_spec _).2.2 (by decide)⟩

/-- C9: with a positive total count, the risk tier computed by the report
is HIGH exactly when the negative percentage is at least 30, MEDIUM exactly
when it is at least 15 and below 30, and LOW exactly when it is below 15;
both boundaries belong to the higher tier. -/
theorem risk_classify_spec (neg total : Nat) (h : 0 < total) :
    (classifyRisk neg total = RiskLevel.high ↔
      30 ≤ ((neg : ℚ) / (total : ℚ)) * 100) ∧
    (classifyRisk neg total = RiskLevel.medium ↔
      15 ≤ ((neg : ℚ) / (total : ℚ)) * 100 ∧ ((neg : ℚ) / (total : ℚ)) * 100 < 30) ∧
    (classifyRisk neg total = RiskLevel.low ↔
      ((neg : ℚ) / (total : ℚ)) * 100 < 15) := by
  unfold classifyRisk
  by_cases h30 : 30 ≤ ((neg : ℚ) / (total : ℚ)) * 100
  · have hn30 : ¬ ((neg : ℚ) / (total : ℚ)) * 100 < 30 := not_lt.mpr h30
    rw [if_pos h30]
    refine ⟨iff_of_true rfl h30, iff_of_false (by decide) (fun hc => hn30 hc.2),
      iff_of_false (by decide) (fun hc => hn30 (hc.trans (by norm_num)))⟩
  · by_cases h15 : 15 ≤ ((neg : ℚ) / (total : ℚ)) * 100
    · rw [if_neg h30, if_pos h15]
      exact ⟨iff_of_false (by decide) h30,
        iff_of_true rfl ⟨h15, not_le.mp h30⟩,
        iff_of_false (by decide) (fun hc => absurd h15 (not_le.mpr hc))⟩
    · rw [if_neg h30, if_neg h15]
      exact ⟨iff_of_false (by decide) h30,
        iff_of_false (by decide) (fun hc => h15 hc.1),
        iff_of_true rfl (not_le.mp h15)⟩

/-- C9 witness: 3 of 10 records negative is exactly 30 percent and lands in
HIGH, 3 of 20 is exactly 15 percent and lands in MEDIUM, and 1 of 10 is 10
percent and lands in LOW. -/
theorem risk_classify_spec_witness :
    classifyRisk 3 10 = RiskLevel.high ∧
    classifyRisk 3 20 = RiskLevel.medium ∧
    classifyRisk 1 10 = RiskLevel.low := by
  refine ⟨?_, ?_, ?_⟩
  · exact (risk_classify_spec 3 10 (by norm_num)).1.mpr (by norm_num)
  · exact (risk_classify_spec 3 20 (by norm_num)).2.1.mpr (by norm_num)
  · exact (risk_classify_spec 1 10 (by norm_num)).2.2.mpr (by norm_num)

/-- C10: the pipeline produces no report exactly when the data source is
absent or the loader kept no valid record; any other malformed input only
contributes per-row rejections and the report is still produced. -/
theorem pipeline_halt_spec (input : Option (List (List String))) :
    runPipeline input = none ↔
      input = none ∨ ∃ rows, input = some rows ∧ (loadRows rows).records = [] := by
  cases input with
  | none => simp [runPipeline]
  | some rows =>
    by_cases h : (loadRows rows).records = [] <;> simp [runPipeline, h]

/-- C1 counterexample: over the two valid records whose summaries mention
only "delay" and only "bug" respectively, the risk analysis ranks the two
tied keywords as delay before bug — the tally map's insertion order — even
though bug precedes delay in the NEGATIVE_WORDS enumeration.  So equal
tallies are not ordered by the fixed enumeration. -/
theorem top_words_tie_order_cex :
    ¬ (∀ p q : String × Nat, [p, q].Sublist (analyzeRisk [exRec1, exRec2]).2.2 →
        p.2 = q.2 → NEGATIVE_WORDS.indexOf p.1 ≤ NEGATIVE_WORDS.indexOf q.1) := by
  intro hall
  have h := hall ("delay", 1) ("bug", 1) (by decide) rfl
  exact absurd h (by decide)

/-- C1 amended: over every non-empty record list, top_words has at most 3
entries and is sorted by descending tally, and any two entries with equal
tallies appear in the order in which their keywords were first encountered
during the scan of the negative records (records in load order, keywords
inside a record in NEGATIVE_WORDS order) — the insertion order of the tally
map, not the NEGATIVE_WORDS enumeration order. -/
theorem top_words_spec (rs : List ProjectRecord) (hne : rs ≠ []) :
    (analyzeRisk rs).2.2.length ≤ 3 ∧
    ((analyzeRisk rs).2.2).Sorted (keyGE cntKey) ∧
    (∀ p q : String × Nat, [p, q].Sublist (analyzeRisk rs).2.2 → p.2 = q.2 →
      [p, q].Sublist (wordCounts rs)) := by
  have hrisk : (analyzeRisk rs).2.2 = topWords rs := by
    simp [analyzeRisk, hne]
  rw [hrisk]
  unfold topWords sortWords
  refine ⟨?_, ?_, ?_⟩
  · rw [List.length_take]
    exact min_le_left _ _
  · exact List.Pairwise.sublist (List.take_sublist _ _)
      (List.sorted_insertionSort _ _)
  · intro p q hsub heq
    exact pair_sublist_of_sorted cntKey
      (hsub.trans (List.take_sublist _ _)) heq

/-- C1 witness: on the delay-then-bug records the three amended properties
hold concretely, the tied pair appearing in tally-map insertion order. -/
theorem top_words_spec_witness :
    (analyzeRisk [exRec1, exRec2]).2.2.length ≤ 3 ∧
    ((analyzeRisk [exRec1, exRec2]).2.2).Sorted (keyGE cntKey) ∧
    [(("delay" : String), 1), ("bug", 1)].Sublist (wordCounts [exRec1, exRec2]) := by
  obtain ⟨h1, h2, h3⟩ := top_words_spec [exRec1, exRec2] (by decide)
  exact ⟨h1, h2, h3 ("delay", 1) ("bug", 1) (by decide) rfl⟩

/-- C6: a non-blank row with fewer than 5 fields is rejected with the error
count incremented and nothing kept, while a non-blank row with 5 or more
fields builds its record from exactly the first 5 fields and is kept
precisely when that record is valid — trailing extras never cause
rejection; processing is a total function, so no exception occurs. -/
theorem load_row_field_count_spec (st : LoadState) (row : List String)
    (hnb : row.all (fun f => f == "") = false) :
    (row.length < 5 → processRow st row = ⟨st.records, st.errorCount + 1⟩) ∧
    (∀ a b c d e rest, row = a :: b :: c :: d :: e :: rest →
      processRow st row =
        if (mkProjectRecord a b c d e).is_valid then
          ⟨st.records ++ [mkProjectRecord a b c d e], st.errorCount⟩
        else ⟨st.records, st.errorCount + 1⟩) := by
  constructor
  · intro hlen
    have hfr : ProjectRecord.from_row row = none := by
      rcases row with _ | ⟨a, _ | ⟨b, _ | ⟨c, _ | ⟨d, _ | ⟨e, rest⟩⟩⟩⟩⟩
      · rfl
      · rfl
      · rfl
      · rfl
      · rfl
      · simp only [List.length_cons] at hlen
        omega
    simp [processRow, hnb, hfr]
  · intro a b c d e rest hrow
    subst hrow
    by_cases hv : (mkProjectRecord a b c d e).is_valid <;>
      simp [processRow, hnb, ProjectRecord.from_row, hv]

/-- C6 witness: the short row is rejected with the error count bumped, and
a 6-field row is handled exactly as its first 5 fields dictate. -/
theorem load_row_field_count_spec_witness :
    processRow ⟨[], 0⟩ ["x"] = ⟨[], 0 + 1⟩ ∧
    processRow ⟨[], 0⟩ ["2024-01-01", "Auth", "2", "Done", "ok", "extra"] =
      (if (mkProjectRecord "2024-01-01" "Auth" "2" "Done" "ok").is_valid then
        ⟨[] ++ [mkProjectRecord "2024-01-01" "Auth" "2" "Done" "ok"], 0⟩
      else ⟨[], 0 + 1⟩) :=
  ⟨(load_row_field_count_spec ⟨[], 0⟩ ["x"] (by decide)).1 (by decide),
   (load_row_field_count_spec ⟨[], 0⟩ _ (by decide)).2
     "2024-01-01" "Auth" "2" "Done" "ok" ["extra"] rfl⟩

/-- C7: the module-workload percentages sum to exactly 100 in exact
arithmetic whenever the grand total duration is positive; when the record
collection is empty or the grand total is 0, every percentage is 0 and so
is their sum. -/
theorem module_percent_sum_spec (rs : List ProjectRecord) :
    (0 < totalDuration rs → sumPercent (sortedModules rs) = 100) ∧
    (totalDuration rs = 0 →
      (∀ p ∈ sortedModules rs, p.2.2 = 0) ∧ sumPercent (sortedModules rs) = 0) ∧
    (rs = [] → sortedModules rs = []) := by
  have key : sumPercent (moduleLoad rs) =
      (((moduleDuration rs).map Prod.snd).map
        (fun d => if 0 < totalDuration rs then d / totalDuration rs * 100 else 0)).sum := by
    unfold sumPercent moduleLoad
    rw [List.map_map, List.map_map]
    rfl
  refine ⟨?_, ?_, ?_⟩
  · intro hT
    rw [sumPercent_sortedModules, key]
    simp only [hT, if_true]
    rw [sum_map_div_mul]
    have hsum : ((moduleDuration rs).map Prod.snd).sum = totalDuration rs := rfl
    rw [hsum, div_self (ne_of_gt hT), one_mul]
  · intro hT
    constructor
    · intro p hp
      have hp2 : p ∈ moduleLoad rs := by
        unfold sortedModules at hp
        exact (List.Perm.mem_iff (List.perm_insertionSort _ _)).mp hp
      unfold moduleLoad at hp2
      obtain ⟨q, _, rfl⟩ := List.mem_map.mp hp2
      simp [hT]
    · rw [sumPercent_sortedModules, key]
      apply List.sum_eq_zero
      intro x hx
      obtain ⟨d, _, rfl⟩ := List.mem_map.mp hx
      simp [hT]
  · intro h
    subst h
    rfl

/-- C7 witness: one 2-hour module sums to 100 percent, the zero-duration
collection has a zero percentage sum, and the empty collection yields the
empty listing. -/
theorem module_percent_sum_spec_witness :
    sumPercent (sortedModules [exRec3]) = 100 ∧
    sumPercent (sortedModules [exRecZero]) = 0 ∧
    sortedModules ([] : List ProjectRecord) = [] := by
  refine ⟨?_, ?_, ?_⟩
  · refine (module_percent_sum_spec [exRec3]).1 ?_
    have h : totalDuration [exRec3] = 2 := by
      simp [totalDuration, moduleDuration, addDur, exRec3]
    rw [h]
    norm_num
  · refine ((module_percent_sum_spec [exRecZero]).2.1 ?_).2
    have hd : exRecZero.duration = 0 := rfl
    simp [totalDuration, moduleDuration, addDur, hd]
  · exact (module_percent_sum_spec []).2.2 rfl

/-- C8: the module-workload output is a rearrangement of the grouped
(module, duration, percentage) entries, sorted by descending group
duration, and any two entries with equal durations keep the order in which
their modules were first encountered in the record sequence. -/
theorem module_load_order_spec (rs : List ProjectRecord) :
    (sortedModules rs).Perm (moduleLoad rs) ∧
    (sortedModules rs).Sorted (keyGE durKey) ∧
    (∀ p q : String × ℚ × ℚ, [p, q].Sublist (sortedModules rs) →
      durKey p = durKey q →
      (rs.map (fun r => r.module)).indexOf p.1 <
        (rs.map (fun r => r.module)).indexOf q.1) := by
  refine ⟨List.perm_insertionSort _ _, List.sorted_insertionSort _ _, ?_⟩
  intro p q hsub heq
  have hsub2 : [p, q].Sublist (moduleLoad rs) := by
    unfold sortedModules at hsub
    exact pair_sublist_of_sorted durKey hsub heq
  have hpq := List.Pairwise.sublist hsub2 (pairwise_firstIdx_moduleLoad rs)
  exact (List.pairwise_cons.mp hpq).1 q (List.mem_cons_self _ _)

/-- C8 witness: with Auth and UI both at 2 hours, the tied entries keep
Auth before UI, the order of first encounter in the records. -/
theorem module_load_order_spec_witness :
    ([exRec3, exRec4].map (fun r => r.module)).indexOf "Auth" <
      ([exRec3, exRec4].map (fun r => r.module)).indexOf "UI" := by
  have hne : (("Auth" : String) == "UI") = false := by decide
  have hmd : moduleDuration [exRec3, exRec4] = [("Auth", 2), ("UI", 2)] := by
    simp [moduleDuration, addDur, exRec3, exRec4, hne]
  have ht : totalDuration [exRec3, exRec4] = 4 := by
    unfold totalDuration
    rw [hmd]
    norm_num
  have hml : moduleLoad [exRec3, exRec4] =
      [("Auth", 2, 50), ("UI", 2, 50)] := by
    unfold moduleLoad
    simp only [hmd, ht]
    norm_num
  have hsm : sortedModules [exRec3, exRec4] =
      [("Auth", 2, 50), ("UI", 2, 50)] := by
    unfold sortedModules
    rw [hml]
    simp [List.insertionSort, List.orderedInsert, keyGE, durKey]
  exact (module_load_order_spec [exRec3, exRec4]).2.2 ("Auth", 2, 50)
    ("UI", 2, 50) (by rw [hsm]) rfl

/-- C4 counterexample: the raw duration "-2" is numeric, so the constructed
record stores the negative value -2; the duration field is not non-negative
after construction. -/
theorem negative_duration_cex :
    (mkProjectRecord "2024-01-01" "Auth" "-2" "Done" "ok").duration < 0 := by
  have h : (mkProjectRecord "2024-01-01" "Auth" "-2" "Done" "ok").duration
      = -(((2 : ℕ) : ℚ) + ((0 : ℕ) : ℚ) / (10 : ℚ) ^ 0) := rfl
  rw [h]
  norm_num

/-- C4 amended: the stored duration equals the parsed numeric value when
the raw string is numeric — including negative values — and 0 when it is
not; non-negativity is not guaranteed at construction, but every record the
Loader actually keeps has a strictly positive duration. -/
theorem duration_parse_spec (dstr m du st su : String)
    (rows : List (List String)) :
    (∀ q : ℚ, parseFloat du = some q →
      (mkProjectRecord dstr m du st su).duration = q) ∧
    (parseFloat du = none → (mkProjectRecord dstr m du st su).duration = 0) ∧
    (∀ r ∈ (loadRows rows).records, 0 < r.duration) := by
  refine ⟨?_, ?_, ?_⟩
  · intro q hq
    simp [mkProjectRecord, hq]
  · intro hq
    simp [mkProjectRecord, hq]
  · exact foldl_processRow_duration_pos rows ⟨[], 0⟩ (by simp)

/-- C4 witness: "3.5" parses to 7/2 and is stored as such, "abc" defaults
to 0, and the record loaded from a well-formed row has positive duration. -/
theorem duration_parse_spec_witness :
    (mkProjectRecord "2024-01-01" "Auth" "3.5" "Done" "ok").duration = 7 / 2 ∧
    (mkProjectRecord "2024-01-01" "Auth" "abc" "Done" "ok").duration = 0 ∧
    0 < (mkProjectRecord "2024-01-01" "Auth" "2" "Done" "ok").duration := by
  have hpf : parseFloat "3.5" =
      some (((3 : ℕ) : ℚ) + ((5 : ℕ) : ℚ) / (10 : ℚ) ^ 1) := rfl
  have hpf0 : parseFloat "abc" = none := rfl
  have h2 : parseFloat "2" =
      some (((2 : ℕ) : ℚ) + ((0 : ℕ) : ℚ) / (10 : ℚ) ^ 0) := rfl
  refine ⟨?_, ?_, ?_⟩
  · have h := (duration_parse_spec "2024-01-01" "Auth" "3.5" "Done" "ok" []).1 _ hpf
    rw [h]
    norm_num
  · exact (duration_parse_spec "2024-01-01" "Auth" "abc" "Done" "ok" []).2.1 hpf0
  · have hdur : (mkProjectRecord "2024-01-01" "Auth" "2" "Done" "ok").duration
        = ((2 : ℕ) : ℚ) + ((0 : ℕ) : ℚ) / (10 : ℚ) ^ 0 := by
      simp [mkProjectRecord, h2]
    have hpos : 0 < (mkProjectRecord "2024-01-01" "Auth" "2" "Done" "ok").duration := by
      rw [hdur]
      norm_num
    have hdate :
        (mkProjectRecord "2024-01-01" "Auth" "2" "Done" "ok").date.isSome = true := by
      decide
    have hval : (mkProjectRecord "2024-01-01" "Auth" "2" "Done" "ok").is_valid = true := by
      simp [ProjectRecord.is_valid, hdate, hpos]
    have hnb : (["2024-01-01", "Auth", "2", "Done", "ok"].all
        (fun f => f == "")) = false := by decide
    have hld : (loadRows [["2024-01-01", "Auth", "2", "Done", "ok"]]).records
        = [mkProjectRecord "2024-01-01" "Auth" "2" "Done" "ok"] := by
      simp [loadRows, processRow, ProjectRecord.from_row, hnb, hval]
    refine (duration_parse_spec "2024-01-01" "Auth" "2" "Done" "ok"
      [["2024-01-01", "Auth", "2", "Done", "ok"]]).2.2 _ ?_
    rw [hld]
    exact List.mem_singleton.mpr rfl
